import Mathlib

/-
Verification development for the path-expression engine in src/pathx.c.

The engine evaluates XPath-like path expressions over an in-memory labelled
tree.  We embed the C code shallowly:

  * tree nodes are identified by their position (list of child indices) in a
    fixed rose tree; the C parent self-loop at the root becomes
    List.dropLast [] = [];
  * the C struct state (error code, parse cursor, context node, value pool,
    value stack, expression stack) becomes the structure State below;
  * the recursive-descent parser and the evaluator are translated function by
    function, with a fuel argument standing in for C loops whose termination
    is not structural; running out of fuel sets PATHX_EINTERNAL, so an
    error-free run never hit the bound.
-/

set_option maxHeartbeats 2000000
set_option exponentiation.threshold 1000
set_option maxRecDepth 8000

namespace PathxC

/-- Error codes of pathx.c, in the order of the C errcodes table. -/
inductive pathx_errcode where
  | NOERROR
  | ENAME
  | ESTRING
  | ENUMBER
  | EDELIM
  | ENOEQUAL
  | ENOMEM
  | EPRED
  | ESLASH
  | EINTERNAL
  | ETYPE
deriving DecidableEq, Repr

/-- The enum type of pathx.c: value and expression types. -/
inductive Ty where
  | T_NONE
  | T_NODESET
  | T_BOOLEAN
  | T_NUMBER
  | T_STRING
deriving DecidableEq, Repr

/-- The enum binary_op of pathx.c. -/
inductive binary_op where
  | OP_EQ
  | OP_NEQ
  | OP_PLUS
  | OP_MINUS
  | OP_STAR
deriving DecidableEq, Repr

/-- The enum axis of pathx.c, seven axes. -/
inductive Axis where
  | SELF
  | CHILD
  | DESCENDANT
  | DESCENDANT_OR_SELF
  | PARENT
  | ANCESTOR
  | ROOT
deriving DecidableEq, Repr

/-- The built-in functions of pathx.c (builtin_funcs): last() and position(). -/
inductive Func where
  | last
  | position
deriving DecidableEq, Repr

def Func.name : Func → List Char
  | .last => ['l', 'a', 's', 't']
  | .position => ['p', 'o', 's', 'i', 't', 'i', 'o', 'n']

def Func.arity : Func → Nat
  | .last => 0
  | .position => 0

def Func.type : Func → Ty
  | .last => .T_NUMBER
  | .position => .T_NUMBER

/-- The order of builtin_funcs in pathx.c. -/
def builtin_funcs : List Func := [.last, .position]

/-- The external tree consumed by the engine: label, value, children.
The C parent and next-sibling links are recovered from positions. -/
inductive Tree where
  | node (label : Option String) (value : Option String) (children : List Tree)
deriving Repr

instance : Inhabited Tree := ⟨.node none none []⟩

def Tree.label : Tree → Option String
  | .node l _ _ => l

def Tree.value : Tree → Option String
  | .node _ v _ => v

def Tree.children : Tree → List Tree
  | .node _ _ c => c

mutual
def Tree.size : Tree → Nat
  | .node _ _ cs => 1 + Tree.sizeList cs
def Tree.sizeList : List Tree → Nat
  | [] => 0
  | c :: cs => Tree.size c + Tree.sizeList cs
end

/-- A node of the tree is identified by its position: the list of child
indices on the way down from the root. -/
abbrev Pos := List Nat

def subtreeAt : Tree → Pos → Option Tree
  | t, [] => some t
  | .node _ _ cs, i :: p =>
      match cs.get? i with
      | some c => subtreeAt c p
      | none => none

def labelAt (t : Tree) (p : Pos) : Option String :=
  match subtreeAt t p with
  | some u => u.label
  | none => none

def valueAt (t : Tree) (p : Pos) : Option String :=
  match subtreeAt t p with
  | some u => u.value
  | none => none

/-- The C node->parent pointer: the root's parent is the root itself
(self-loop convention). -/
def tparent (p : Pos) : Pos := p.dropLast

/-- The C node->children pointer (first child), as a position. -/
def firstChild (t : Tree) (p : Pos) : Option Pos :=
  match subtreeAt t p with
  | some (.node _ _ (_ :: _)) => some (p ++ [0])
  | _ => none

/-- The C node->next pointer (next sibling), as a position. -/
def nextSibling : Tree → Pos → Option Pos
  | _, [] => none
  | .node _ _ cs, [i] => if i + 1 < cs.length then some [i + 1] else none
  | .node _ _ cs, i :: p =>
      match cs.get? i with
      | some c =>
          match nextSibling c p with
          | some q => some (i :: q)
          | none => none
      | none => none

/-- streqx of pathx.c: NULL and the empty string compare equal. -/
def streqx (s1 s2 : Option String) : Bool :=
  match s1 with
  | none =>
      match s2 with
      | none => true
      | some y => y.length == 0
  | some x =>
      match s2 with
      | none => x.length == 0
      | some y => x == y

mutual
/-- A location step: axis, optional name (NULL matches any name), predicates.
The C struct pred (nexpr plus exprs array) is the list of predicate
expressions; a NULL pred pointer is the empty list. -/
inductive Step where
  | mk (axis : Axis) (name : Option String) (predicates : List Expr)
/-- The tagged expression union of pathx.c.  E_VALUE stores an index into the
value pool; E_APP stores the built-in and its argument vector. -/
inductive Expr where
  | E_LOCPATH (steps : List Step)
  | E_BINARY (op : binary_op) (left : Expr) (right : Expr)
  | E_VALUE (value_ind : Nat)
  | E_APP (func : Func) (args : List Expr)
end

def Step.axis : Step → Axis
  | .mk a _ _ => a

def Step.name : Step → Option String
  | .mk _ n _ => n

def Step.predicates : Step → List Expr
  | .mk _ _ p => p

/-- step_matches of pathx.c: a NULL step name matches anything, otherwise the
name must streqx-equal the node's label. -/
def step_matches (t : Tree) (step : Step) (p : Pos) : Bool :=
  step.name == none || streqx step.name (labelAt t p)

/-- The ROOT axis loop of step_first: climb parent links until the self-loop.
The fuel p.length + 1 always suffices (each parent link shortens the
position). -/
def climbRootGo : Nat → Pos → Pos
  | 0, p => p
  | fuel + 1, p => if tparent p = p then p else climbRootGo fuel (tparent p)

def climbRoot (p : Pos) : Pos := climbRootGo (p.length + 1) p

/-- The inner ascent loop of step_next for the descendant axes:
while (node->next == NULL && node != ctx) node = node->parent;
then NULL if node == ctx, else node->next.  The C loop does not terminate
when ctx is not an ancestor of node and node reaches the root; that
unreachable case returns none here. -/
def stepAscendGo (t : Tree) (ctx : Pos) : Nat → Pos → Option Pos
  | 0, _ => none
  | fuel + 1, node =>
      if nextSibling t node ≠ none ∨ node = ctx then
        (if node = ctx then none else nextSibling t node)
      else stepAscendGo t ctx fuel (tparent node)

def stepAscend (t : Tree) (ctx : Pos) (node : Pos) : Option Pos :=
  stepAscendGo t ctx (node.length + 1) node

/-- One execution of the switch in step_next's while loop: from the current
node, the raw next candidate on the axis (before the name test). -/
def step_advance (t : Tree) (step : Step) (ctx : Pos) (node : Pos) : Option Pos :=
  match step.axis with
  | .SELF => none
  | .CHILD => nextSibling t node
  | .DESCENDANT | .DESCENDANT_OR_SELF =>
      match firstChild t node with
      | some c => some c
      | none => stepAscend t ctx node
  | .PARENT | .ROOT => none
  | .ANCESTOR => if tparent node = node then none else some (tparent node)

/-- The while loop of step_next, advancing until a candidate passes the name
test or the axis is exhausted; fuelled, the callers pass Tree.size t + 1. -/
def step_next_go (t : Tree) (step : Step) (ctx : Pos) : Nat → Pos → Option Pos
  | 0, _ => none
  | fuel + 1, node =>
      match step_advance t step ctx node with
      | none => none
      | some n => if step_matches t step n then some n else step_next_go t step ctx fuel n

/-- step_next of pathx.c. -/
def step_next (t : Tree) (step : Step) (ctx : Pos) (node : Pos) : Option Pos :=
  step_next_go t step ctx (Tree.size t + 1) node

/-- step_first of pathx.c. -/
def step_first (t : Tree) (step : Step) (ctx : Pos) : Option Pos :=
  let node : Option Pos :=
    match step.axis with
    | .SELF | .DESCENDANT_OR_SELF => some ctx
    | .CHILD | .DESCENDANT => firstChild t ctx
    | .PARENT | .ANCESTOR => some (tparent ctx)
    | .ROOT => some (climbRoot ctx)
  match node with
  | none => none
  | some n => if step_matches t step n then some n else step_next t step ctx n

/-- The tagged value union of pathx.c.  Node sets are ordered lists of
positions (insertion order, duplicates kept). -/
inductive Value where
  | nodeset (ns : List Pos)
  | number (n : Int)
  | string (s : String)
  | boolean (b : Bool)
deriving DecidableEq, Repr

def Value.tag : Value → Ty
  | .nodeset _ => .T_NODESET
  | .number _ => .T_NUMBER
  | .string _ => .T_STRING
  | .boolean _ => .T_BOOLEAN

/-- Reading the nodeset union member; any other tag is a union type pun that
the C code never performs (the type checker rules it out). -/
def Value.getNodeset : Value → List Pos
  | .nodeset ns => ns
  | _ => []

/-- Reading the string union member; NULL for a non-string (never performed
on well-typed runs). -/
def Value.getString : Value → Option String
  | .string s => some s
  | _ => none

def Value.getNumber : Value → Int
  | .number n => n
  | _ => 0

/-- The struct state of pathx.c.  The value stack and the expression stack
keep the bottom at index 0 as in C (push appends, pop removes the last). -/
structure State where
  errcode : pathx_errcode
  txt : List Char
  pos : Nat
  ctx : Pos
  ctx_pos : Nat
  ctx_len : Nat
  value_pool : List Value
  values : List Nat
  exprs : List Expr

def seterr (e : pathx_errcode) (s : State) : State := { s with errcode := e }

def hasError (s : State) : Bool := s.errcode != .NOERROR

/-- Conversion of a C uint to int (two's complement, as gcc behaves). -/
def intOfUint (u : Nat) : Int :=
  if u % 4294967296 < 2147483648 then ((u % 4294967296 : Nat) : Int)
  else ((u % 4294967296 : Nat) : Int) - 4294967296

/-- Conversion of a C int to uint (reduction mod 2^32). -/
def uintOfInt (n : Int) : Nat := (n % 4294967296).toNat

/-- Two's-complement wrap-around of signed 32-bit arithmetic. -/
def wrap32 (n : Int) : Int := (n + 2147483648) % 4294967296 - 2147483648

/-
Lexer primitives.  The text is a NUL-free list of characters; reading one
position past the end yields the C string terminator.
-/

def nulChar : Char := Char.ofNat 0

def curCharAt (txt : List Char) (pos : Nat) : Char := (txt.get? pos).getD nulChar

def isspaceC (c : Char) : Bool :=
  c.toNat == 32 || c.toNat == 9 || c.toNat == 10 || c.toNat == 11 ||
    c.toNat == 12 || c.toNat == 13

def isalphaC (c : Char) : Bool :=
  (65 ≤ c.toNat && c.toNat ≤ 90) || (97 ≤ c.toNat && c.toNat ≤ 122)

def isdigitC (c : Char) : Bool :=
  48 ≤ c.toNat && c.toNat ≤ 57

/-- The number of leading whitespace characters of a suffix. -/
def wsCount : List Char → Nat
  | [] => 0
  | c :: rest => if isspaceC c then wsCount rest + 1 else 0

def skipwsAux (txt : List Char) (pos : Nat) : Nat :=
  pos + wsCount (txt.drop pos)

/-- skipws of pathx.c. -/
def skipws (s : State) : State := { s with pos := skipwsAux s.txt s.pos }

/-- match of pathx.c (renamed; match is a Lean keyword): skip whitespace,
then consume the character M if it is next.  Note the whitespace skip is kept
even on failure, as in C. -/
def matchC (m : Char) (s : State) : Bool × State :=
  let s := skipws s
  let c := curCharAt s.txt s.pos
  if c = nulChar then (false, s)
  else if c = m then (true, { s with pos := s.pos + 1 })
  else (false, s)

/-- peek of pathx.c: strchr(chars, *pos).  strchr also finds the NUL
terminator of CHARS, so at the end of the text peek returns true. -/
def peekC (s : State) (chars : List Char) : Bool :=
  let c := curCharAt s.txt s.pos
  c == nulChar || chars.contains c

/-- looking_at of pathx.c: TOKEN, optional whitespace, FOLLOW; consumes all
three on success, leaves the position unchanged otherwise. -/
def looking_at (s : State) (token follow : List Char) : Bool × State :=
  if token.isPrefixOf (s.txt.drop s.pos) then
    let p := skipwsAux s.txt (s.pos + token.length)
    if follow.isPrefixOf (s.txt.drop p) then
      (true, { s with pos := p + follow.length })
    else (false, s)
  else (false, s)

/-
Value-pool and stack operations.
-/

/-- make_value of pathx.c, fused with the caller's field assignment: append
the value to the pool and return its index.  (Allocation cannot fail here,
so the ENOMEM paths disappear.) -/
def make_value (v : Value) (s : State) : Nat × State :=
  (s.value_pool.length, { s with value_pool := s.value_pool ++ [v] })

def push_value (vind : Nat) (s : State) : State :=
  { s with values := s.values ++ [vind] }

def push_boolean_value (b : Bool) (s : State) : State :=
  push_value (if b then 1 else 0) s

/-- pop_value of pathx.c: pop an index and resolve it in the pool.  An empty
stack or a dangling index is the C assert(0) path, modelled as EINTERNAL
with no value. -/
def pop_value (s : State) : Option Value × State :=
  match s.values.getLast? with
  | some vind =>
      match s.value_pool.get? vind with
      | some v => (some v, { s with values := s.values.dropLast })
      | none => (none, seterr .EINTERNAL { s with values := s.values.dropLast })
  | none => (none, seterr .EINTERNAL s)

def push_expr (e : Expr) (s : State) : State :=
  { s with exprs := s.exprs ++ [e] }

/-- pop_expr of pathx.c; the empty-stack case is the C assert(0) path. -/
def pop_expr (s : State) : Option Expr × State :=
  match s.exprs.getLast? with
  | some e => (some e, { s with exprs := s.exprs.dropLast })
  | none => (none, seterr .EINTERNAL s)

/-- Pop N expressions into an array, filling indices N-1 down to 0 as the C
loops in parse_predicates and parse_function_call do. -/
def pop_exprs : Nat → State → List Expr × State
  | 0, s => ([], s)
  | n + 1, s =>
      match pop_expr s with
      | (some e, s1) =>
          let (rest, s2) := pop_exprs n s1
          (rest ++ [e], s2)
      | (none, s1) => ([], s1)

/-- push_new_binary_op of pathx.c: pop right, pop left, push the binary
node.  The pops cannot fail on runs the parser produces. -/
def push_new_binary_op (op : binary_op) (s : State) : State :=
  match pop_expr s with
  | (some r, s1) =>
      match pop_expr s1 with
      | (some l, s2) => push_expr (.E_BINARY op l r) s2
      | (none, s2) => s2
  | (none, s1) => s1

/-
parse_name and the literal and number parsers (non-recursive productions).
-/

/-- The scanning loop of parse_name over the remaining text: the number of
characters the name occupies, or none when a backslash escape dangles at the
end of the text (ENAME). -/
def nameScan : List Char → Option Nat
  | [] => some 0
  | c :: rest =>
      if c = '[' ∨ c = '/' ∨ c = ']' ∨ c = '=' ∨ isspaceC c then some 0
      else if c = Char.ofNat 92 then
        match rest with
        | [] => none
        | _ :: rest2 =>
            match nameScan rest2 with
            | some k => some (k + 2)
            | none => none
      else
        match nameScan rest with
        | some k => some (k + 1)
        | none => none

/-- The position one past the name starting at POS. -/
def nameEnd (txt : List Char) (pos : Nat) : Option Nat :=
  match nameScan (txt.drop pos) with
  | some k => some (pos + k)
  | none => none

/-- The unescaping pass of parse_name: a backslash copies the next character
verbatim. -/
def unescapeName : List Char → List Char
  | [] => []
  | c :: rest =>
      if c = Char.ofNat 92 then
        match rest with
        | [] => []
        | d :: rest2 => d :: unescapeName rest2
      else c :: unescapeName rest

/-- parse_name of pathx.c. -/
def parse_name (s : State) : Option String × State :=
  match nameEnd s.txt s.pos with
  | none => (none, seterr .ENAME s)
  | some e =>
      if e = s.pos then (none, seterr .ENAME s)
      else
        let raw := (s.txt.drop s.pos).take (e - s.pos)
        (some (String.mk (unescapeName raw)), { s with pos := e })

/-- parse_literal of pathx.c. -/
def parse_literal (s : State) : State :=
  let c := curCharAt s.txt s.pos
  if c = '"' ∨ c = Char.ofNat 39 then
    let delim := c
    let s1 := { s with pos := s.pos + 1 }
    let content := (s1.txt.drop s1.pos).takeWhile (fun ch => ch ≠ delim)
    let s2 := { s1 with pos := s1.pos + content.length }
    if curCharAt s2.txt s2.pos ≠ delim then seterr .EDELIM s2
    else
      let s3 := { s2 with pos := s2.pos + 1 }
      let (vind, s4) := make_value (.string (String.mk content)) s3
      push_expr (.E_VALUE vind) s4
  else seterr .ESTRING s

def natOfDigits (l : List Char) : Nat :=
  l.foldl (fun acc c => 10 * acc + (c.toNat - 48)) 0

/-- parse_number of pathx.c.  strtoul never sees a sign or leading blank
here (the caller checked that a digit is next); the combined
errno / end==pos / (int)val != val test collapses to: no digits, or a value
not representable in a signed 32-bit int. -/
def parse_number (s : State) : State :=
  let digits := (s.txt.drop s.pos).takeWhile isdigitC
  if digits.isEmpty then seterr .ENUMBER s
  else
    let val := natOfDigits digits
    if 2147483648 ≤ val then seterr .ENUMBER s
    else
      let s1 := { s with pos := s.pos + digits.length }
      let (vind, s2) := make_value (.number (val : Int)) s1
      push_expr (.E_VALUE vind) s2

/-
The type checker (check_expr and helpers).  The C code stores the computed
type in the expression node; here check_expr returns it.  Every type error
in check_* is PATHX_ETYPE, so failure is none; a dangling value index (C
would read an uninitialised union) is also none.
-/

mutual
def check_expr (pool : List Value) : Expr → Option Ty
  | .E_LOCPATH steps =>
      match check_steps pool steps with
      | some _ => some .T_NODESET
      | none => none
  | .E_BINARY op l r =>
      match check_expr pool l with
      | none => none
      | some lt =>
          match check_expr pool r with
          | none => none
          | some rt =>
              match op with
              | .OP_EQ | .OP_NEQ =>
                  if ((lt = .T_NODESET ∨ lt = .T_STRING) ∧
                      (rt = .T_NODESET ∨ rt = .T_STRING)) ∨
                     (lt = .T_NUMBER ∧ rt = .T_NUMBER) then some .T_BOOLEAN
                  else none
              | .OP_PLUS | .OP_MINUS | .OP_STAR =>
                  if lt = .T_NUMBER ∧ rt = .T_NUMBER then some .T_NUMBER
                  else none
  | .E_VALUE vind =>
      match pool.get? vind with
      | some v => some v.tag
      | none => none
  | .E_APP func args =>
      match check_args pool func.arity args with
      | some _ => some func.type
      | none => none

/-- check_app's argument loop.  Both built-ins take no arguments, so the
argument types are all T_NUMBER in the C table; arity is 0 for both. -/
def check_args (pool : List Value) : Nat → List Expr → Option Unit
  | 0, _ => some ()
  | _ + 1, [] => none
  | n + 1, a :: rest =>
      match check_expr pool a with
      | some _ => check_args pool n rest
      | none => none

def check_steps (pool : List Value) : List Step → Option Unit
  | [] => some ()
  | ⟨_, _, preds⟩ :: rest =>
      match check_preds pool preds with
      | some _ => check_steps pool rest
      | none => none

/-- check_preds of pathx.c: each predicate expression must have type
T_NODESET, T_NUMBER or T_BOOLEAN. -/
def check_preds (pool : List Value) : List Expr → Option Unit
  | [] => some ()
  | e :: rest =>
      match check_expr pool e with
      | none => none
      | some ty =>
          if ty = .T_NODESET ∨ ty = .T_NUMBER ∨ ty = .T_BOOLEAN then
            check_preds pool rest
          else none
end

/-
The recursive-descent parser.  Each function takes a fuel argument that is
decremented on every call; exhausting it sets PATHX_EINTERNAL.  The top
level hands the parser far more fuel than any input can consume, so an
error-free parse never hit the bound.
-/

/-- The axis separator of pathx.c. -/
def axisSep : List Char := [':', ':']

/-- The axis_names table of pathx.c, in order, paired with the axis enum. -/
def axis_names : List (Axis × List Char) :=
  [(.SELF, "self".toList),
   (.CHILD, "child".toList),
   (.DESCENDANT, "descendant".toList),
   (.DESCENDANT_OR_SELF, "descendant-or-self".toList),
   (.PARENT, "parent".toList),
   (.ANCESTOR, "ancestor".toList),
   (.ROOT, "root".toList)]

/-- The axis loop of parse_step: the first table entry followed by the
axis separator wins; the default axis is CHILD. -/
def find_axis : State → List (Axis × List Char) → Axis × State
  | s, [] => (.CHILD, s)
  | s, (ax, nm) :: rest =>
      match looking_at s nm (axisSep) with
      | (true, s1) => (ax, s1)
      | (false, _) => find_axis s rest

/-- The function lookup loop of parse_function_call.  The C loop has no
break, so a later match overrides an earlier one, and each looking_at call
that succeeds advances the cursor. -/
def find_func : State → List Func → Option Func × State
  | s, [] => (none, s)
  | s, f :: rest =>
      let (b, s1) := looking_at s f.name ['(']
      let (r, s2) := find_func s1 rest
      match r with
      | some g => (some g, s2)
      | none => (if b then some f else none, s2)

def quoteChars : List Char := [Char.ofNat 39, '"']

def digitChars : List Char := ['0', '1', '2', '3', '4', '5', '6', '7', '8', '9']

/-- looking_at_primary_expr of pathx.c: a quote or digit next (or the end of
the text, through the strchr terminator quirk of peek), or any run of
letters followed by optional whitespace and an opening parenthesis.  The
letter run may be empty. -/
def looking_at_primary_expr (s : State) : Bool :=
  if peekC s (quoteChars ++ digitChars) then true
  else
    let rest := ((s.txt.drop s.pos).dropWhile isalphaC).dropWhile isspaceC
    match rest with
    | c :: _ => c == '('
    | [] => false

/-- The tail of parse_function_call after the argument list: arity check,
pop the arguments, push the application. -/
def function_call_build (f : Func) (nargs : Nat) (s : State) : State :=
  if nargs ≠ f.arity then seterr .EDELIM s
  else
    let (args, s1) := pop_exprs nargs s
    push_expr (.E_APP f args) s1

mutual
/-- parse_expr of pathx.c. -/
def parse_expr : Nat → State → State
  | 0, s => seterr .EINTERNAL s
  | fuel + 1, s => parse_equality_expr fuel (skipws s)

/-- parse_equality_expr of pathx.c. -/
def parse_equality_expr : Nat → State → State
  | 0, s => seterr .EINTERNAL s
  | fuel + 1, s =>
      let s := parse_additive_expr fuel s
      if hasError s then s
      else
        let c := curCharAt s.txt s.pos
        if c = '=' ∨ (c = '!' ∧ curCharAt s.txt (s.pos + 1) = '=') then
          let op : binary_op := if c = '=' then .OP_EQ else .OP_NEQ
          let s := { s with pos := s.pos + (if c = '=' then 1 else 2) }
          let s := skipws s
          let s := parse_additive_expr fuel s
          if hasError s then s else push_new_binary_op op s
        else s

/-- parse_additive_expr of pathx.c. -/
def parse_additive_expr : Nat → State → State
  | 0, s => seterr .EINTERNAL s
  | fuel + 1, s =>
      let s := parse_multiplicative_expr fuel s
      if hasError s then s else additive_loop fuel s

/-- The while loop of parse_additive_expr. -/
def additive_loop : Nat → State → State
  | 0, s => seterr .EINTERNAL s
  | fuel + 1, s =>
      let c := curCharAt s.txt s.pos
      if c = '+' ∨ c = '-' then
        let op : binary_op := if c = '+' then .OP_PLUS else .OP_MINUS
        let s := { s with pos := s.pos + 1 }
        let s := skipws s
        let s := parse_multiplicative_expr fuel s
        if hasError s then s else additive_loop fuel (push_new_binary_op op s)
      else s

/-- parse_multiplicative_expr of pathx.c. -/
def parse_multiplicative_expr : Nat → State → State
  | 0, s => seterr .EINTERNAL s
  | fuel + 1, s =>
      let s := parse_path_expr fuel s
      if hasError s then s else mult_loop fuel s

/-- The while loop of parse_multiplicative_expr. -/
def mult_loop : Nat → State → State
  | 0, s => seterr .EINTERNAL s
  | fuel + 1, s =>
      match matchC '*' s with
      | (false, s) => s
      | (true, s) =>
          let s := parse_path_expr fuel s
          if hasError s then s else mult_loop fuel (push_new_binary_op .OP_STAR s)

/-- parse_path_expr of pathx.c: the lookahead decides between a primary
expression and a location path. -/
def parse_path_expr : Nat → State → State
  | 0, s => seterr .EINTERNAL s
  | fuel + 1, s =>
      if looking_at_primary_expr s then parse_primary_expr fuel s
      else parse_location_path fuel s

/-- parse_primary_expr of pathx.c. -/
def parse_primary_expr : Nat → State → State
  | 0, s => seterr .EINTERNAL s
  | fuel + 1, s =>
      if peekC s quoteChars then parse_literal s
      else if peekC s digitChars then parse_number s
      else parse_function_call fuel s

/-- parse_function_call of pathx.c. -/
def parse_function_call : Nat → State → State
  | 0, s => seterr .EINTERNAL s
  | fuel + 1, s =>
      let (func?, s) := find_func s builtin_funcs
      match func? with
      | none => seterr .ENAME s
      | some f =>
          match matchC ')' s with
          | (true, s) => function_call_build f 0 s
          | (false, s) =>
              let (nargs, s) := fc_args fuel 0 s
              if hasError s then s
              else
                match matchC ')' s with
                | (false, s) => seterr .EDELIM s
                | (true, s) => function_call_build f nargs s

/-- The do-while argument loop of parse_function_call. -/
def fc_args : Nat → Nat → State → Nat × State
  | 0, n, s => (n, seterr .EINTERNAL s)
  | fuel + 1, n, s =>
      let n := n + 1
      let s := parse_expr fuel s
      if hasError s then (n, s)
      else
        match matchC ',' s with
        | (true, s) => fc_args fuel n s
        | (false, s) => (n, s)

/-- parse_location_path of pathx.c.  A leading // prepends a
descendant-or-self step to the relative path; a leading / prepends a ROOT
step; a bare / is the path whose only step is ROOT. -/
def parse_location_path : Nat → State → State
  | 0, s => seterr .EINTERNAL s
  | fuel + 1, s =>
      match matchC '/' s with
      | (true, s) =>
          if curCharAt s.txt s.pos = '/' then
            let s := { s with pos := s.pos + 1 }
            let (lp?, s) := parse_relative_location_path fuel s
            if hasError s then s
            else
              match lp? with
              | some lp => push_expr (.E_LOCPATH (⟨.DESCENDANT_OR_SELF, none, []⟩ :: lp)) s
              | none => s
          else
            if curCharAt s.txt s.pos ≠ nulChar then
              let (lp?, s) := parse_relative_location_path fuel s
              if hasError s then s
              else
                match lp? with
                | some lp => push_expr (.E_LOCPATH (⟨.ROOT, none, []⟩ :: lp)) s
                | none => s
            else
              push_expr (.E_LOCPATH [⟨.ROOT, none, []⟩]) s
      | (false, s) =>
          let (lp?, s) := parse_relative_location_path fuel s
          if hasError s then s
          else
            match lp? with
            | some lp => push_expr (.E_LOCPATH lp) s
            | none => s

/-- parse_relative_location_path of pathx.c. -/
def parse_relative_location_path : Nat → State → Option (List Step) × State
  | 0, s => (none, seterr .EINTERNAL s)
  | fuel + 1, s =>
      let (st?, s) := parse_step fuel s
      if hasError s then (none, s)
      else
        match st? with
        | some st => rel_loop fuel [st] s
        | none => (none, s)

/-- The while loop of parse_relative_location_path: / or // then a step;
// inserts a descendant-or-self step before the parsed step. -/
def rel_loop : Nat → List Step → State → Option (List Step) × State
  | 0, _, s => (none, seterr .EINTERNAL s)
  | fuel + 1, acc, s =>
      match matchC '/' s with
      | (false, s) => (some acc, s)
      | (true, s) =>
          let (acc, s) :=
            if curCharAt s.txt s.pos = '/' then
              (acc ++ [(⟨.DESCENDANT_OR_SELF, none, []⟩ : Step)], { s with pos := s.pos + 1 })
            else (acc, s)
          let (st?, s) := parse_step fuel s
          if hasError s then (none, s)
          else
            match st? with
            | some st => rel_loop fuel (acc ++ [st]) s
            | none => (none, s)

/-- parse_step of pathx.c: '..', '.', or axis, name test, predicates. -/
def parse_step : Nat → State → Option Step × State
  | 0, s => (none, seterr .EINTERNAL s)
  | fuel + 1, s =>
      if curCharAt s.txt s.pos = '.' ∧ curCharAt s.txt (s.pos + 1) = '.' then
        (some ⟨.PARENT, none, []⟩, { s with pos := s.pos + 2 })
      else
        match matchC '.' s with
        | (true, s1) => (some ⟨.SELF, none, []⟩, s1)
        | (false, s1) =>
            let (ax, s2) := find_axis s1 axis_names
            let (bstar, s3) := matchC '*' s2
            let (name?, s4) :=
              if bstar then ((none : Option String), s3) else parse_name s3
            if hasError s4 then (none, s4)
            else
              let (preds?, s5) := parse_predicates fuel s4
              if hasError s5 then (none, s5)
              else (some ⟨ax, name?, preds?.getD []⟩, s5)

/-- parse_predicates of pathx.c: the bracket loop, then the top nexpr
expressions are transferred from the stack into the predicate list. -/
def parse_predicates : Nat → State → Option (List Expr) × State
  | 0, s => (none, seterr .EINTERNAL s)
  | fuel + 1, s =>
      let (nexpr, s) := preds_loop fuel 0 s
      if hasError s then (none, s)
      else if nexpr = 0 then (none, s)
      else
        let (args, s) := pop_exprs nexpr s
        (some args, s)

/-- The while loop of parse_predicates: bracket, inner expression, closing
bracket (PATHX_EPRED when missing), trailing whitespace. -/
def preds_loop : Nat → Nat → State → Nat × State
  | 0, n, s => (n, seterr .EINTERNAL s)
  | fuel + 1, n, s =>
      match matchC '[' s with
      | (false, s) => (n, s)
      | (true, s) =>
          let s := parse_expr fuel s
          let n := n + 1
          if hasError s then (n, s)
          else
            match matchC ']' s with
            | (false, s) => (n, seterr .EPRED s)
            | (true, s) => preds_loop fuel n (skipws s)
end

/-- More fuel than any input can consume: the parser functions each consume
a character or dispatch downward a bounded number of times. -/
def parseFuel (txt : List Char) : Nat := 16 * txt.length + 64

/-- The struct pathx of pathx.c: state, compiled location path, lazily
evaluated node-set, cursor, origin node. -/
structure Pathx where
  state : State
  locpath : List Step
  nodeset : Option (List Pos)
  node : Nat
  origin : Pos

/-- pathx_parse of pathx.c: initialise the state (value pool slots 0 and 1
are the canonical booleans), parse, require exactly one expression on the
stack, type check, and require a node-set-typed location path at the root. -/
def pathx_parse (origin : Pos) (txt : List Char) : Pathx :=
  let s0 : State :=
    ⟨.NOERROR, txt, 0, [], 0, 0, [.boolean false, .boolean true], [], []⟩
  let s1 := parse_expr (parseFuel txt) s0
  if hasError s1 then ⟨s1, [], none, 0, origin⟩
  else if s1.exprs.length ≠ 1 then ⟨seterr .EINTERNAL s1, [], none, 0, origin⟩
  else
    match s1.exprs.get? 0 with
    | none => ⟨seterr .EINTERNAL s1, [], none, 0, origin⟩
    | some e =>
        match check_expr s1.value_pool e with
        | none => ⟨seterr .ETYPE s1, [], none, 0, origin⟩
        | some ty =>
            match e with
            | .E_LOCPATH lp =>
                if ty ≠ .T_NODESET then ⟨seterr .ETYPE s1, [], none, 0, origin⟩
                else ⟨s1, lp, none, 0, origin⟩
            | _ => ⟨seterr .ETYPE s1, [], none, 0, origin⟩

/-
The evaluator.
-/

/-- func_last of pathx.c: push ctx_len as a number. -/
def func_last (s : State) : State :=
  let (vind, s1) := make_value (.number (intOfUint s.ctx_len)) s
  push_value vind s1

/-- func_position of pathx.c: push ctx_pos as a number. -/
def func_position (s : State) : State :=
  let (vind, s1) := make_value (.number (intOfUint s.ctx_pos)) s
  push_value vind s1

/-- calc_eq_nodeset_nodeset of pathx.c: some pair of node values is
streqx-equal (or streqx-unequal when NEQ). -/
def calc_eq_nodeset_nodeset (t : Tree) (ns1 ns2 : List Pos) (neq : Bool) : Bool :=
  ns1.any (fun p1 => ns2.any (fun p2 =>
    if neq then !(streqx (valueAt t p1) (valueAt t p2))
    else streqx (valueAt t p1) (valueAt t p2)))

/-- calc_eq_nodeset_string of pathx.c. -/
def calc_eq_nodeset_string (t : Tree) (ns : List Pos) (str : Option String)
    (neq : Bool) : Bool :=
  ns.any (fun p =>
    if neq then !(streqx (valueAt t p) str) else streqx (valueAt t p) str)

/-- eval_eq of pathx.c: pop right then left and dispatch on the tags.  In
the final branch (both strings) the C code computes streqx and never
negates it, so NEQ behaves like EQ there; the translation keeps that. -/
def eval_eq (t : Tree) (s : State) (neq : Bool) : State :=
  let (r?, s1) := pop_value s
  let (l?, s2) := pop_value s1
  match l?, r? with
  | some l, some r =>
      let res :=
        match l, r with
        | .nodeset ns1, .nodeset ns2 => calc_eq_nodeset_nodeset t ns1 ns2 neq
        | .nodeset ns1, _ => calc_eq_nodeset_string t ns1 r.getString neq
        | _, .nodeset ns2 => calc_eq_nodeset_string t ns2 l.getString neq
        | .number a, .number b => if neq then a != b else a == b
        | _, _ => streqx l.getString r.getString
      push_boolean_value res s2
  | _, _ => s2

/-- eval_arith of pathx.c: pop right then left, combine, push a fresh
number.  C signed overflow is modelled as 32-bit wrap-around. -/
def eval_arith (op : binary_op) (s : State) : State :=
  let (r?, s1) := pop_value s
  let (l?, s2) := pop_value s1
  match l?, r? with
  | some l, some r =>
      let res : Int :=
        match op with
        | .OP_PLUS => wrap32 (l.getNumber + r.getNumber)
        | .OP_MINUS => wrap32 (l.getNumber - r.getNumber)
        | _ => wrap32 (l.getNumber * r.getNumber)
      let (vind, s3) := make_value (.number res) s2
      push_value vind s3
  | _, _ => s2

/-- The node enumeration loop of ns_from_locpath for one context node:
step_first then step_next until NULL.  Fuelled with Tree.size t + 1, which
no traversal can exhaust; none means the fuel ran out. -/
def step_iter_go (t : Tree) (step : Step) (ctx : Pos) :
    Nat → Option Pos → Option (List Pos)
  | _, none => some []
  | 0, some _ => none
  | fuel + 1, some n =>
      match step_iter_go t step ctx fuel (step_next t step ctx n) with
      | some l => some (n :: l)
      | none => none

def step_iter (t : Tree) (step : Step) (ctx : Pos) : Option (List Pos) :=
  step_iter_go t step ctx (Tree.size t + 1) (step_first t step ctx)

/-- The expansion double loop of ns_from_locpath: enumerate the step from
every node of the working set in order and concatenate. -/
def step_expand (t : Tree) (step : Step) : List Pos → Option (List Pos)
  | [] => some []
  | w :: ws =>
      match step_iter t step w with
      | none => none
      | some l =>
          match step_expand t step ws with
          | some rest => some (l ++ rest)
          | none => none

mutual
/-- eval_expr of pathx.c (with the CHECK_ERROR short-circuit first).  All
evaluator functions carry a fuel that is decremented on every call; the
public entry points pass evalFuel, which no run can exhaust, so running out
is EINTERNAL. -/
def eval_expr : Nat → Tree → Expr → State → State
  | 0, _, _, s => seterr .EINTERNAL s
  | fuel + 1, t, e, s =>
      if hasError s then s
      else
        match e with
        | .E_LOCPATH lp => eval_locpath fuel t lp s
        | .E_BINARY op l r =>
            let s1 := eval_expr fuel t l s
            let s2 := eval_expr fuel t r s1
            if hasError s2 then s2
            else
              match op with
              | .OP_EQ => eval_eq t s2 false
              | .OP_NEQ => eval_eq t s2 true
              | _ => eval_arith op s2
        | .E_VALUE vind => push_value vind s
        | .E_APP f args =>
            let s1 := eval_args fuel t args s
            if hasError s1 then s1
            else
              match f with
              | .last => func_last s1
              | .position => func_position s1

/-- The argument loop of eval_app. -/
def eval_args : Nat → Tree → List Expr → State → State
  | 0, _, _, s => seterr .EINTERNAL s
  | fuel + 1, t, args, s =>
      match args with
      | [] => s
      | a :: rest =>
          let s1 := eval_expr fuel t a s
          if hasError s1 then s1 else eval_args fuel t rest s1

/-- eval_locpath of pathx.c: run ns_from_locpath, intern the final node-set
in the pool, push it; the intermediate node-sets are dropped. -/
def eval_locpath : Nat → Tree → List Step → State → State
  | 0, _, _, s => seterr .EINTERNAL s
  | fuel + 1, t, lp, s =>
      let (ns, s1) := ns_from_locpath fuel t lp s
      if hasError s1 then s1
      else
        let (vind, s2) := make_value (.nodeset (ns.getLast?.getD [])) s1
        push_value vind s2

/-- ns_from_locpath of pathx.c: the returned list has one node-set per step
plus the seed [ctx] in front; the context fields are saved and restored. -/
def ns_from_locpath : Nat → Tree → List Step → State → List (List Pos) × State
  | 0, _, lp, s => (List.replicate (lp.length + 1) [], seterr .EINTERNAL s)
  | fuel + 1, t, lp, s =>
      let old_ctx := s.ctx
      let old_ctx_len := s.ctx_len
      let old_ctx_pos := s.ctx_pos
      let (tailNs, s1) := ns_go fuel t lp [s.ctx] s
      ([s.ctx] :: tailNs,
       { s1 with ctx := old_ctx, ctx_pos := old_ctx_pos, ctx_len := old_ctx_len })

/-- The step loop of ns_from_locpath: expand the step from the working set,
then filter by each predicate in order.  Fuel exhaustion inside the
expansion (impossible for the bound the callers pass) is EINTERNAL; the
returned list always has one entry per step. -/
def ns_go : Nat → Tree → List Step → List Pos → State → List (List Pos) × State
  | 0, _, steps, _, s => (List.replicate steps.length [], seterr .EINTERNAL s)
  | fuel + 1, t, steps, work, s =>
      match steps with
      | [] => ([], s)
      | step :: rest =>
          match step_expand t step work with
          | none => (List.replicate (rest.length + 1) [], seterr .EINTERNAL s)
          | some next0 =>
              match step with
              | ⟨_, _, preds⟩ =>
                  let (next1, s1) := preds_go fuel t preds next0 s
                  let (tailNs, s2) := ns_go fuel t rest next1 s1
                  (next1 :: tailNs, s2)

/-- The predicate loop of ns_from_locpath: for each predicate, set ctx_len
to the current set size, start ctx_pos at 1, and filter. -/
def preds_go : Nat → Tree → List Expr → List Pos → State → List Pos × State
  | 0, _, _, _, s => ([], seterr .EINTERNAL s)
  | fuel + 1, t, preds, nodes, s =>
      match preds with
      | [] => (nodes, s)
      | p :: ps =>
          let s1 := { s with ctx_len := nodes.length, ctx_pos := 1 }
          let (nodes1, s2) := pred_filter fuel t p nodes 1 s1
          preds_go fuel t ps nodes1 s2

/-- The in-place filtering loop for one predicate: ctx is each candidate in
turn, ctx_pos advances on every iteration (also when the candidate is
removed), a kept candidate is retained in order. -/
def pred_filter : Nat → Tree → Expr → List Pos → Nat → State → List Pos × State
  | 0, _, _, _, _, s => ([], seterr .EINTERNAL s)
  | fuel + 1, t, p, nodes, pos, s =>
      match nodes with
      | [] => ([], s)
      | n :: rest =>
          let s1 := { s with ctx := n, ctx_pos := pos }
          let (b, s2) := eval_pred fuel t p s1
          let (keep, s3) := pred_filter fuel t p rest (pos + 1) s2
          (if b then n :: keep else keep, s3)

/-- eval_pred of pathx.c: evaluate, pop, dispatch on the tag.  A number is
a position test against ctx_pos (a uint compared with an int, hence the
mod-2^32 view); a node-set tests non-emptiness. -/
def eval_pred : Nat → Tree → Expr → State → Bool × State
  | 0, _, _, s => (false, seterr .EINTERNAL s)
  | fuel + 1, t, p, s =>
      let s := eval_expr fuel t p s
      match pop_value s with
      | (some v, s1) =>
          match v with
          | .boolean b => (b, s1)
          | .number num => ((s1.ctx_pos % 4294967296 == uintOfInt num), s1)
          | .nodeset ns => (decide (0 < ns.length), s1)
          | _ => (false, s1)
      | (none, s1) => (false, s1)
end

/-- Evaluation fuel for a compiled path: far beyond the depth any run can
reach (working node-sets are bounded by powers of the tree size). -/
def evalFuel (t : Tree) (txt : List Char) : Nat :=
  (Tree.size t + 2) ^ parseFuel txt

/-
The iteration surface: pathx_first, pathx_next.
-/

/-- The tail of pathx_first shared by the lazy and the cached path: reset
the cursor and return the first entry. -/
def pathx_first_tail (p : Pathx) : Option Pos × Pathx :=
  let p := { p with node := 0 }
  match p.nodeset with
  | some (x :: _) => (some x, p)
  | _ => (none, p)

/-- pathx_first of pathx.c: evaluate lazily on first use (requiring exactly
one value, the node-set, on the value stack), cache the node-set, reset the
cursor to 0 and return the first node or none. -/
def pathx_first (t : Tree) (p : Pathx) : Option Pos × Pathx :=
  match p.nodeset with
  | none =>
      let st := { p.state with ctx := p.origin, ctx_pos := 1, ctx_len := 1 }
      let st :=
        match st.exprs.get? 0 with
        | some e => eval_expr (evalFuel t st.txt) t e st
        | none => seterr .EINTERNAL st
      if hasError st then (none, { p with state := st })
      else if st.values.length ≠ 1 then
        (none, { p with state := seterr .EINTERNAL st })
      else
        match pop_value st with
        | (some v, st2) =>
            pathx_first_tail { p with state := st2, nodeset := some v.getNodeset }
        | (none, st2) => (none, { p with state := st2 })
  | some _ => pathx_first_tail p

/-- pathx_next of pathx.c: advance the cursor; none when exhausted. -/
def pathx_next (p : Pathx) : Option Pos × Pathx :=
  let ns := p.nodeset.getD []
  if p.node + 1 < ns.length then (ns.get? (p.node + 1), { p with node := p.node + 1 })
  else (none, p)

/-- Exhaustive iteration: pathx_first, then pathx_next until none.  The
fuel needs to cover at most the node-set length. -/
def pathx_nexts (p : Pathx) : Nat → List Pos
  | 0 => []
  | fuel + 1 =>
      match pathx_next p with
      | (some n, p1) => n :: pathx_nexts p1 fuel
      | (none, _) => []

def pathx_iterate (t : Tree) (p : Pathx) : List Pos :=
  match pathx_first t p with
  | (some n, p1) => n :: pathx_nexts p1 (p1.nodeset.getD []).length
  | (none, _) => []

/-
locpath_search and pathx_expand_tree.
-/

/-- The downward scan of locpath_search: the greatest index of a non-empty
node-set, or none when all are empty (the C last == -1). -/
def last_nonempty : List (List Pos) → Option Nat
  | [] => none
  | x :: rest =>
      match last_nonempty rest with
      | some i => some (i + 1)
      | none => if x.isEmpty then none else some 0

/-- locpath_search of pathx.c.  Returns (result, tmatch, smatch, state);
smatch is the C step-pointer suffix of the step list ([] standing for
NULL). -/
def locpath_search (t : Tree) (lp : List Step) (s : State) (tm : Pos) :
    Int × Option Pos × List Step × State :=
  let s := { s with ctx := tm }
  let (ns, s1) := ns_from_locpath (evalFuel t s.txt) t lp s
  if hasError s1 then (-1, none, [], s1)
  else
    match last_nonempty ns with
    | none => (1, none, lp, s1)
    | some last =>
        if 1 < ((ns.get? last).getD []).length then (-1, none, [], s1)
        else (0, ((ns.get? last).getD []).head?, lp.drop last, s1)

def childCountAt (t : Tree) (p : Pos) : Nat :=
  match subtreeAt t p with
  | some u => u.children.length
  | none => 0

/-- make_tree plus list_append of the C creation loop: append a fresh leaf
with the given label at the end of the child list of the node at P. -/
def insertChild : Tree → Pos → String → Tree
  | .node l v cs, [], name => .node l v (cs ++ [.node (some name) none []])
  | .node l v cs, i :: rest, name =>
      .node l v (cs.set i (insertChild (cs.getD i default) rest name))

/-- The creation loop of pathx_expand_tree: each remaining step must be a
named child step; create the child, remember the first one created, and
descend.  A failing step yields none: the C code removes the created
subtree again, so the tree reverts to the original. -/
def expand_create (t : Tree) : List Step → Pos → Option Pos → Option (Tree × Pos)
  | [], _, fc =>
      match fc with
      | some f => some (t, f)
      | none => none
  | ⟨ax, nm, _⟩ :: rest, parent, fc =>
      match nm with
      | none => none
      | some name =>
          if ax ≠ .CHILD then none
          else
            let newPos := parent ++ [childCountAt t parent]
            let t1 := insertChild t parent name
            let fc1 := match fc with
                       | some f => some f
                       | none => some newPos
            expand_create t1 rest newPos fc1

/-- The final descent of pathx_expand_tree: follow first-child links from
the first created node to the deepest created leaf. -/
def descendFirst (t : Tree) : Pos → Nat → Pos
  | p, 0 => p
  | p, fuel + 1 =>
      match firstChild t p with
      | some c => descendFirst t c fuel
      | none => p

/-- pathx_expand_tree of pathx.c: search for the longest-prefix match, then
materialise the remaining steps as fresh children.  Returns the result
code, the out-node, and the (possibly extended) tree. -/
def pathx_expand_tree (t : Tree) (p : Pathx) : Int × Option Pos × Tree :=
  let (r, tmatch, smatch, _s1) := locpath_search t p.locpath p.state p.origin
  if r = -1 then (-1, none, t)
  else
    match smatch with
    | [] => (0, tmatch, t)
    | steps =>
        let parent := tmatch.getD p.origin
        match expand_create t steps parent none with
        | some (t1, fc) => (0, some (descendFirst t1 fc (Tree.size t1 + 1)), t1)
        | none => (-1, none, t)

/-
Claim C3: the parent axis.
-/

/-- C3, counterexample: the claim says a parent step at the root yields no
candidate; in the code step_first has no root check for PARENT, so at the
root (whose parent link is the self-loop) the step yields the root itself,
both at the step level and through the whole pipeline for the path "..". -/
theorem c3_parent_axis_counterexample :
    step_first (Tree.node none none []) (Step.mk .PARENT none []) [] = some [] ∧
    tparent ([] : Pos) = [] ∧
    pathx_iterate (Tree.node none none []) (pathx_parse [] ['.', '.']) = [[]] :=
  ⟨by decide, rfl, by decide⟩

/-- C3, amended: a parent step yields ctx->parent as its only candidate,
subject to the name test; at the root the self-loop makes that candidate the
root itself.  step_next never yields anything on the parent axis. -/
theorem c3_parent_axis_amended (t : Tree) (step : Step) (ctx : Pos)
    (h : step.axis = .PARENT) :
    step_first t step ctx =
      (if step_matches t step (tparent ctx) then some (tparent ctx) else none) ∧
    ∀ node, step_next t step ctx node = none := by
  have hnext : ∀ node, step_next t step ctx node = none := by
    intro node
    simp [step_next, step_next_go, step_advance, h]
  refine ⟨?_, hnext⟩
  simp only [step_first, h]
  rw [hnext (tparent ctx)]

/-- C3, witness for the amended theorem at a one-node tree. -/
theorem c3_parent_axis_witness :
    step_first (Tree.node none none []) (Step.mk .PARENT none []) [] =
      (if step_matches (Tree.node none none []) (Step.mk .PARENT none [])
          (tparent []) then some (tparent ([] : Pos)) else none) :=
  (c3_parent_axis_amended (Tree.node none none []) (Step.mk .PARENT none []) [] rfl).1

/-
Claim C2: equality on two strings.
-/

/-- C2: the code bug in eval_eq's string/string branch.  Evaluating the
binary expression "a" != "b" (two string values, OP_NEQ) pushes the boolean
FALSE although the operands are not streqx-equal: the branch computes
streqx and ignores the negation flag.  (Every other branch of eval_eq
honours it.) -/
theorem c2_string_neq_code_bug :
    (pop_value (eval_expr 9 (Tree.node none none [])
        (.E_BINARY .OP_NEQ (.E_VALUE 2) (.E_VALUE 3))
        ⟨.NOERROR, [], 0, [], 0, 0,
          [.boolean false, .boolean true, .string "a", .string "b"], [], []⟩)).1 =
      some (.boolean false) ∧
    streqx (some "a") (some "b") = false :=
  ⟨by decide, by decide⟩

/-
Claim C4: unmatched and missing right brackets.
-/

/-- C4, counterexample: the text a] contains an unmatched right bracket and
no opening bracket, yet pathx_parse succeeds (the parser never rejects
trailing text). -/
theorem c4_unmatched_rbrack_counterexample :
    (pathx_parse [] ['a', ']']).state.errcode = .NOERROR ∧
    (['a', ']'].contains '[') = false ∧
    (['a', ']'].contains ']') = true :=
  ⟨by decide, by decide, by decide⟩

/-- C4, amended: PATHX_EPRED is raised for a missing right bracket: a
predicate opened with [ whose expression is not followed by ].  Shown for
the family "a[d" for every digit d. -/
theorem c4_missing_rbrack_epred (n : Nat) :
    (pathx_parse [] ['a', '[', Char.ofNat (48 + n % 10)]).state.errcode = .EPRED := by
  have h : n % 10 < 10 := Nat.mod_lt _ (by omega)
  generalize hm : n % 10 = m at h ⊢
  interval_cases m <;> decide

/-
Claim C7: the PrimaryExpr lookahead.
-/

/-- Modelled from the spec's lookahead sentence, for comparison with the
code: begins with a quote, a digit, or ONE-OR-MORE ASCII letters followed
by optional whitespace and an opening parenthesis; everything else is a
location path. -/
def spec_primary_lookahead (txt : List Char) (pos : Nat) : Bool :=
  match txt.drop pos with
  | [] => false
  | c :: _ =>
      (quoteChars ++ digitChars).contains c ||
      (!((txt.drop pos).takeWhile isalphaC).isEmpty &&
        (match ((txt.drop pos).dropWhile isalphaC).dropWhile isspaceC with
         | d :: _ => d == '('
         | [] => false))

/-- What the code implements, stated directly on the text: at the end of
the text, or a quote or digit next, or ZERO-or-more letters then optional
whitespace then an opening parenthesis. -/
def code_primary_lookahead (txt : List Char) (pos : Nat) : Bool :=
  match txt.drop pos with
  | [] => true
  | c :: _ =>
      (quoteChars ++ digitChars).contains c ||
      (match ((txt.drop pos).dropWhile isalphaC).dropWhile isspaceC with
       | d :: _ => d == '('
       | [] => false)

/-- C7, counterexample: at a bare opening parenthesis (no letters before
it) the claim says LocationPath, but looking_at_primary_expr accepts (the
letter run may be empty), and parse_path_expr then takes the PrimaryExpr
branch, failing with ENAME in parse_function_call — a location-path parse
of the same text would succeed, since a parenthesis is a legal name
character. -/
theorem c7_lookahead_counterexample :
    looking_at_primary_expr ⟨.NOERROR, ['('], 0, [], 0, 0, [], [], []⟩ = true ∧
    spec_primary_lookahead ['('] 0 = false ∧
    (parse_path_expr 9 ⟨.NOERROR, ['('], 0, [], 0, 0, [], [], []⟩).errcode = .ENAME ∧
    (parse_location_path 9 ⟨.NOERROR, ['('], 0, [], 0, 0, [], [], []⟩).errcode = .NOERROR :=
  ⟨by decide, by decide, by decide, by decide⟩

/-- C7, amended: the lookahead treats a PathExpr as a PrimaryExpr iff the
position is at the end of the text, or begins with a quote or a digit, or
with zero-or-more ASCII letters followed by optional whitespace and an
opening parenthesis. -/
theorem c7_lookahead_amended (s : State) (hnul : nulChar ∉ s.txt) :
    looking_at_primary_expr s = code_primary_lookahead s.txt s.pos := by
  unfold looking_at_primary_expr code_primary_lookahead peekC
  rcases h : s.txt.drop s.pos with _ | ⟨c, rest⟩
  · have hle : s.txt.length ≤ s.pos := by
      have := congrArg List.length h
      simp [List.length_drop] at this
      omega
    have hcur : curCharAt s.txt s.pos = nulChar := by
      simp [curCharAt, List.getElem?_eq_none hle]
    simp [hcur]
  · have hget : s.txt[s.pos]? = some c := by
      have h0 : (s.txt.drop s.pos)[0]? = some c := by rw [h]; simp
      rw [List.getElem?_drop] at h0
      simpa using h0
    have hcur : curCharAt s.txt s.pos = c := by simp [curCharAt, hget]
    have hcnul : (c == nulChar) = false := by
      refine beq_eq_false_iff_ne.mpr ?_
      intro hc
      apply hnul
      rw [← hc]
      exact List.drop_subset _ _ (by rw [h]; exact List.mem_cons_self c rest)
    by_cases hcont : ((quoteChars ++ digitChars).contains c) = true
    · simp [hcur, hcnul, hcont]
    · rcases hrest : ((s.txt.drop s.pos).dropWhile isalphaC).dropWhile isspaceC with
        _ | ⟨d, ds⟩ <;>
        simp [hcur, hcnul, hcont, hrest]

/-- C7, witness for the amended lookahead equation. -/
theorem c7_lookahead_witness :
    looking_at_primary_expr ⟨.NOERROR, ['('], 0, [], 0, 0, [], [], []⟩ =
      code_primary_lookahead ['('] 0 :=
  c7_lookahead_amended ⟨.NOERROR, ['('], 0, [], 0, 0, [], [], []⟩ (by decide)

/-
Claim C8: number parsing and the 32-bit range check.
-/

theorem curCharAt_drop_cons {txt : List Char} {pos : Nat} {c : Char}
    {rest : List Char} (h : txt.drop pos = c :: rest) : curCharAt txt pos = c := by
  have h0 : (txt.drop pos)[0]? = some c := by rw [h]; simp
  rw [List.getElem?_drop] at h0
  simp only [Nat.add_zero] at h0
  simp [curCharAt, h0]

theorem curCharAt_drop_nil {txt : List Char} {pos : Nat}
    (h : txt.drop pos = []) : curCharAt txt pos = nulChar := by
  have hle : txt.length ≤ pos := by
    have := congrArg List.length h
    simp [List.length_drop] at this
    omega
  simp [curCharAt, List.getElem?_eq_none hle]

/-- C8: parse_number at a digit.  When the maximal digit run's value fits a
signed 32-bit integer, the cursor moves past the run, the value is interned
as that number, and a value expression referencing it is pushed; otherwise
the parse fails with ENUMBER and the state is otherwise untouched. -/
theorem c8_parse_number_range (s : State)
    (hd : isdigitC (curCharAt s.txt s.pos) = true) :
    (natOfDigits ((s.txt.drop s.pos).takeWhile isdigitC) < 2147483648 →
      parse_number s =
        { s with
          pos := s.pos + ((s.txt.drop s.pos).takeWhile isdigitC).length,
          value_pool := s.value_pool ++
            [.number (natOfDigits ((s.txt.drop s.pos).takeWhile isdigitC) : Int)],
          exprs := s.exprs ++ [.E_VALUE s.value_pool.length] }) ∧
    (2147483648 ≤ natOfDigits ((s.txt.drop s.pos).takeWhile isdigitC) →
      parse_number s = seterr .ENUMBER s) := by
  have hne : ((s.txt.drop s.pos).takeWhile isdigitC).isEmpty = false := by
    rcases hdrop : s.txt.drop s.pos with _ | ⟨c, rest⟩
    · rw [curCharAt_drop_nil hdrop] at hd
      exact absurd hd (by decide)
    · have hcd : isdigitC c = true := by
        rw [curCharAt_drop_cons hdrop] at hd
        exact hd
      simp [List.takeWhile_cons, hcd]
  constructor
  · intro hlt
    simp only [parse_number]
    simp only [hne, Bool.false_eq_true, if_false]
    rw [if_neg (by omega)]
    rfl
  · intro hge
    simp only [parse_number]
    simp only [hne, Bool.false_eq_true, if_false]
    rw [if_pos hge]

/-- C8, witness: "5" parses to the number 5; ten nines exceed the signed
32-bit range and fail with ENUMBER. -/
theorem c8_parse_number_witness :
    (parse_number ⟨.NOERROR, ['5'], 0, [], 0, 0, [.boolean false, .boolean true], [], []⟩ =
      { (⟨.NOERROR, ['5'], 0, [], 0, 0, [.boolean false, .boolean true], [], []⟩ : State) with
        pos := (0 : Nat) + (((['5'] : List Char).drop 0).takeWhile isdigitC).length,
        value_pool := [.boolean false, .boolean true] ++
          [.number (natOfDigits (((['5'] : List Char).drop 0).takeWhile isdigitC) : Int)],
        exprs := ([] : List Expr) ++
          [.E_VALUE ([Value.boolean false, .boolean true] : List Value).length] }) ∧
    parse_number ⟨.NOERROR, "9999999999".toList, 0, [], 0, 0, [], [], []⟩ =
      seterr .ENUMBER ⟨.NOERROR, "9999999999".toList, 0, [], 0, 0, [], [], []⟩ :=
  ⟨(c8_parse_number_range _ (by decide)).1 (by decide),
   (c8_parse_number_range _ (by decide)).2 (by decide)⟩

/-
Claim C5: the post-parse stack and root-expression invariant.
-/

/-- C5: whenever pathx_parse returns NOERROR, the expression stack holds
exactly one expression, that expression is the E_LOCPATH recorded in the
compiled path, and its checked type is T_NODESET.  All other outcomes of
the parse (wrong stack depth, wrong tag, wrong type, or a parse error) are
reported as errors, so they cannot reach this state. -/
theorem c5_parse_root_invariant (origin : Pos) (txt : List Char)
    (h : (pathx_parse origin txt).state.errcode = .NOERROR) :
    (pathx_parse origin txt).state.exprs.length = 1 ∧
    (pathx_parse origin txt).state.exprs.get? 0 =
      some (.E_LOCPATH (pathx_parse origin txt).locpath) ∧
    check_expr (pathx_parse origin txt).state.value_pool
      (.E_LOCPATH (pathx_parse origin txt).locpath) = some .T_NODESET := by
  set P := pathx_parse origin txt with hPdef
  simp only [pathx_parse] at hPdef
  split at hPdef
  · -- parse error
    rename_i hE
    rw [hPdef] at h
    simp only at h
    simp [hasError, h] at hE
  · split at hPdef
    · -- stack depth not 1
      rw [hPdef] at h
      simp [seterr] at h
    · split at hPdef
      · -- stack empty (contradicts depth 1)
        rw [hPdef] at h
        simp [seterr] at h
      · -- an expression is on top
        split at hPdef
        · -- type check failed
          rw [hPdef] at h
          simp [seterr] at h
        · split at hPdef
          · -- a location path at the root
            split at hPdef
            · -- type not nodeset
              rw [hPdef] at h
              simp [seterr] at h
            · -- success: all the guards passed
              rename_i hperr hlen x1 x2 rt e lp heq1 heq2 htyne
              rw [hPdef]
              exact ⟨not_not.mp hlen, heq1, (not_not.mp htyne) ▸ heq2⟩
          · -- root expression is not a location path
            rw [hPdef] at h
            simp [seterr] at h

/-- C5, witness at the path consisting only of the root step. -/
theorem c5_parse_root_invariant_witness :
    (pathx_parse [] ['/']).state.exprs.length = 1 ∧
    (pathx_parse [] ['/']).state.exprs.get? 0 =
      some (.E_LOCPATH (pathx_parse [] ['/']).locpath) ∧
    check_expr (pathx_parse [] ['/']).state.value_pool
      (.E_LOCPATH (pathx_parse [] ['/']).locpath) = some .T_NODESET :=
  c5_parse_root_invariant [] ['/'] (by decide)

/-
Claim C9: pathx_first caches the node-set.
-/

theorem pathx_first_tail_spec (q : Pathx) (ns0 : List Pos)
    (h : q.nodeset = some ns0) :
    pathx_first_tail q = (ns0.head?, { q with node := 0 }) := by
  cases hns0 : ns0 with
  | nil => simp [pathx_first_tail, h, hns0]
  | cons x xs => simp [pathx_first_tail, h, hns0]

theorem pathx_set_node_self (p : Pathx) (h : p.node = 0) :
    { p with node := 0 } = p := by
  cases p
  simp_all

/-- Any call of pathx_first that ends with a cached node-set returned its
head and left the cursor at 0. -/
theorem pathx_first_head (t : Tree) (p : Pathx) (r : Option Pos) (p2 : Pathx)
    (ns : List Pos) (hfst : pathx_first t p = (r, p2))
    (hns : p2.nodeset = some ns) :
    r = ns.head? ∧ p2.node = 0 := by
  rcases hp : p.nodeset with _ | ns0
  · -- first call evaluated
    unfold pathx_first at hfst
    rw [hp] at hfst
    simp only at hfst
    split at hfst
    · -- evaluation error
      cases hfst
      simp [hp] at hns
    · split at hfst
      · -- value stack depth wrong
        cases hfst
        simp [hp] at hns
      · split at hfst
        · -- node-set popped and cached
          rename_i v st2 hpop
          rw [pathx_first_tail_spec _ v.getNodeset rfl] at hfst
          cases hfst
          simp only at hns
          cases hns
          exact ⟨rfl, rfl⟩
        · -- pop failed (cannot happen after the depth check)
          cases hfst
          simp [hp] at hns
  · -- first call hit the cache
    unfold pathx_first at hfst
    rw [hp] at hfst
    simp only at hfst
    rw [pathx_first_tail_spec p ns0 hp] at hfst
    cases hfst
    simp only at hns
    rw [hp] at hns
    cases hns
    exact ⟨rfl, rfl⟩

/-- C9: once a call to pathx_first has left a cached node-set in the
compiled path, calling pathx_first again returns the same result and the
same compiled path unchanged — the cursor is already 0 and the expression
is not re-evaluated (the cached branch of pathx_first never touches the
evaluator). -/
theorem c9_first_cached (t : Tree) (p : Pathx) (r : Option Pos) (p2 : Pathx)
    (ns : List Pos) (hfst : pathx_first t p = (r, p2))
    (hns : p2.nodeset = some ns) :
    pathx_first t p2 = (r, p2) ∧ p2.node = 0 := by
  have hmain := pathx_first_head t p r p2 ns hfst hns
  refine ⟨?_, hmain.2⟩
  unfold pathx_first
  rw [hns]
  simp only
  rw [pathx_first_tail_spec p2 ns hns, pathx_set_node_self p2 hmain.2, hmain.1]

/-- C9, witness: the path "/" over a one-node tree. -/
theorem c9_first_cached_witness :
    pathx_first (Tree.node none none [])
        (pathx_first (Tree.node none none []) (pathx_parse [] ['/'])).2 =
      ((pathx_first (Tree.node none none []) (pathx_parse [] ['/'])).1,
       (pathx_first (Tree.node none none []) (pathx_parse [] ['/'])).2) ∧
    (pathx_first (Tree.node none none []) (pathx_parse [] ['/'])).2.node = 0 :=
  c9_first_cached (Tree.node none none []) (pathx_parse [] ['/'])
    (pathx_first (Tree.node none none []) (pathx_parse [] ['/'])).1
    (pathx_first (Tree.node none none []) (pathx_parse [] ['/'])).2
    [[]] rfl (by decide)

/-
Claim C6: first / next iteration versus the final node-set.
-/

theorem pathx_nexts_spec (fuel : Nat) :
    ∀ (q : Pathx) (ns : List Pos) (i : Nat), q.nodeset = some ns → q.node = i →
      pathx_nexts q fuel = (ns.drop (i + 1)).take fuel := by
  induction fuel with
  | zero => intro q ns i h1 h2; simp [pathx_nexts]
  | succ f ih =>
      intro q ns i h1 h2
      unfold pathx_nexts pathx_next
      rw [h1, h2]
      simp only [Option.getD_some]
      by_cases hlt : i + 1 < ns.length
      · rw [if_pos hlt]
        have hget : ns.get? (i + 1) = some ns[i + 1] := by
          simp [List.getElem?_eq_getElem hlt]
        rw [hget]
        simp only
        rw [ih { state := q.state, locpath := q.locpath, nodeset := some ns,
                 node := i + 1, origin := q.origin } ns (i + 1) rfl rfl]
        rw [List.drop_eq_getElem_cons hlt]
        rfl
      · rw [if_neg hlt]
        simp only
        rw [List.drop_eq_nil_of_le (by omega)]
        simp

/-- C6, counterexample: over the tree r -> a, the path
//descendant-or-self::* evaluates to a node-set of three entries in which
the node a appears twice (node-sets are not deduplicated), so first plus
exhaustive next yields three nodes of which only two are distinct — not
"n distinct nodes". -/
theorem c6_iterate_counterexample :
    pathx_iterate (Tree.node none none [Tree.node (some "a") none []])
        (pathx_parse [] "//descendant-or-self::*".toList) = [[], [0], [0]] ∧
    ¬ ([[], [0], [0]] : List Pos).Nodup ∧
    ((pathx_first (Tree.node none none [Tree.node (some "a") none []])
        (pathx_parse [] "//descendant-or-self::*".toList)).2.nodeset.getD
        []).length = 3 :=
  ⟨by decide, by decide, by decide⟩

/-- C6, amended: first followed by exhaustive next yields exactly the
entries of the final node-set, in insertion order (they need not be
distinct, since working node-sets are never deduplicated). -/
theorem c6_iterate_eq_nodeset (t : Tree) (p : Pathx) (r : Option Pos)
    (p2 : Pathx) (ns : List Pos) (hfst : pathx_first t p = (r, p2))
    (hns : p2.nodeset = some ns) :
    pathx_iterate t p = ns := by
  have hmain := pathx_first_head t p r p2 ns hfst hns
  unfold pathx_iterate
  rw [hfst]
  rcases hr : r with _ | x
  · rw [hr] at hmain
    have : ns = [] := List.head?_eq_none_iff.mp hmain.1.symm
    simp [this]
  · simp only
    rw [hr] at hmain
    have hhead : ns.head? = some x := hmain.1.symm
    rw [pathx_nexts_spec _ p2 ns 0 hns hmain.2, hns]
    simp only [Option.getD_some, Nat.zero_add]
    rw [List.take_of_length_le (by simp [List.length_drop])]
    cases ns with
    | nil => simp at hhead
    | cons y ys =>
        simp at hhead
        rw [hhead]
        simp

/-- C6, witness for the amended theorem: the path "/" over a one-node
tree. -/
theorem c6_iterate_witness :
    pathx_iterate (Tree.node none none []) (pathx_parse [] ['/']) = [[]] :=
  c6_iterate_eq_nodeset (Tree.node none none []) (pathx_parse [] ['/'])
    (pathx_first (Tree.node none none []) (pathx_parse [] ['/'])).1
    (pathx_first (Tree.node none none []) (pathx_parse [] ['/'])).2
    [[]] rfl (by decide)

/-
Claim C1: predicate filtering positions and the position()=n literal test.
-/

/-- The positional filter pred_filter implements for a number-literal
predicate: keep the entries whose 1-based position equals the literal
(through the uint comparison of eval_pred). -/
def posFilter (n : Int) : List Pos → Nat → List Pos
  | [], _ => []
  | x :: xs, pos =>
      if pos % 4294967296 == uintOfInt n then x :: posFilter n xs (pos + 1)
      else posFilter n xs (pos + 1)

/-- Evaluating a number-valued E_VALUE predicate at a context leaves the
state unchanged and tests ctx_pos against the number. -/
theorem eval_pred_number (fuel : Nat) (t : Tree) (i : Nat) (n : Int)
    (s : State) (hfuel : 2 ≤ fuel) (herr : s.errcode = .NOERROR)
    (hpool : s.value_pool.get? i = some (.number n)) :
    eval_pred fuel t (.E_VALUE i) s =
      ((s.ctx_pos % 4294967296 == uintOfInt n), s) := by
  obtain ⟨f, rfl⟩ : ∃ f, fuel = f + 2 := ⟨fuel - 2, by omega⟩
  cases s with
  | mk err txt pos ctx cpos clen pool vals exprs =>
      simp only at herr hpool
      subst herr
      rw [List.get?_eq_getElem?] at hpool
      unfold eval_pred eval_expr
      simp [hasError, push_value, pop_value, List.getLast?_concat,
        List.dropLast_concat, hpool]

theorem pred_filter_number (t : Tree) (i : Nat) (n : Int) :
    ∀ (l : List Pos) (pos : Nat) (fuel : Nat) (s : State),
      l.length + 2 ≤ fuel → s.errcode = .NOERROR →
      s.value_pool.get? i = some (.number n) →
      (pred_filter fuel t (.E_VALUE i) l pos s).1 = posFilter n l pos := by
  intro l
  induction l with
  | nil =>
      intro pos fuel s hf herr hpool
      obtain ⟨f, rfl⟩ : ∃ f, fuel = f + 1 := ⟨fuel - 1, by omega⟩
      simp [pred_filter, posFilter]
  | cons x xs ih =>
      intro pos fuel s hf herr hpool
      obtain ⟨f, rfl⟩ : ∃ f, fuel = f + 1 := ⟨fuel - 1, by omega⟩
      have hf2 : xs.length + 2 ≤ f := by simp at hf; omega
      have hev := eval_pred_number f t i n { s with ctx := x, ctx_pos := pos }
        (by omega) herr hpool
      rcases hpf : pred_filter f t (.E_VALUE i) xs (pos + 1)
          { s with ctx := x, ctx_pos := pos } with ⟨keep, s3⟩
      have hkeep : keep = posFilter n xs (pos + 1) := by
        have h2 := ih (pos + 1) f { s with ctx := x, ctx_pos := pos } hf2 herr hpool
        rw [hpf] at h2
        exact h2
      unfold pred_filter
      simp only [hev, hpf]
      rw [hkeep]
      conv_rhs => rw [posFilter]

theorem posFilter_nat (m : Nat) (hm : m < 4294967296) :
    ∀ (l : List Pos) (pos : Nat), pos + l.length ≤ 4294967296 →
      posFilter (m : Int) l pos =
        if pos ≤ m ∧ m < pos + l.length then (l.get? (m - pos)).toList
        else [] := by
  have huint : uintOfInt (m : Int) = m := by
    unfold uintOfInt
    omega
  intro l
  induction l with
  | nil =>
      intro pos h
      rw [if_neg (by simp only [List.length_nil]; omega)]
      rfl
  | cons x xs ih =>
      intro pos h
      unfold posFilter
      rw [huint]
      have hpos : pos % 4294967296 = pos := Nat.mod_eq_of_lt (by simp at h; omega)
      rw [hpos]
      by_cases hc : pos = m
      · subst hc
        rw [if_pos (by simp)]
        rw [ih (pos + 1) (by simp at h ⊢; omega)]
        rw [if_neg (by omega)]
        simp
      · have hcb : (pos == m) = false := beq_eq_false_iff_ne.mpr hc
        rw [hcb]
        simp only [Bool.false_eq_true, if_false]
        rw [ih (pos + 1) (by simp at h ⊢; omega)]
        by_cases hin : pos + 1 ≤ m ∧ m < pos + 1 + xs.length
        · rw [if_pos hin, if_pos (by simp; omega)]
          have hmp : m - pos = (m - (pos + 1)) + 1 := by omega
          rw [hmp]
          rfl
        · rw [if_neg hin, if_neg (by simp; omega)]

/-- C1: filtering a working node-set by the single predicate that is the
integer literal m (a number-valued E_VALUE) retains exactly the m-th entry
(1-based) of the pre-predicate working set: ctx_pos advances on removed
entries too, so positions always refer to the set before this predicate's
removals. -/
theorem c1_position_literal_predicate (t : Tree) (s : State) (l : List Pos)
    (i m : Nat) (x : Pos) (fuel : Nat)
    (hfuel : l.length + 3 ≤ fuel)
    (herr : s.errcode = .NOERROR)
    (hpool : s.value_pool.get? i = some (.number (m : Int)))
    (h1 : 1 ≤ m) (h2 : m ≤ l.length) (hlen : l.length < 4294967295)
    (hx : l.get? (m - 1) = some x) :
    (preds_go fuel t [.E_VALUE i] l s).1 = [x] := by
  obtain ⟨f, rfl⟩ : ∃ f, fuel = f + 2 := ⟨fuel - 2, by omega⟩
  rcases hpf : pred_filter (f + 1) t (.E_VALUE i) l 1
      { s with ctx_len := l.length, ctx_pos := 1 } with ⟨nodes1, s2⟩
  have hn1 : nodes1 = posFilter ((m : Nat) : Int) l 1 := by
    have h2 := pred_filter_number t i ((m : Nat) : Int) l 1 (f + 1)
      { s with ctx_len := l.length, ctx_pos := 1 } (by omega) herr hpool
    rw [hpf] at h2
    exact h2
  unfold preds_go
  simp only [hpf]
  unfold preds_go
  simp only
  rw [hn1, posFilter_nat m (by omega) l 1 (by omega)]
  rw [if_pos (by omega)]
  rw [hx]
  rfl

/-- C1, witness: the literal 2 retains exactly the second of three
entries. -/
theorem c1_position_literal_witness :
    (preds_go 9 (Tree.node none none []) [.E_VALUE 2] [[0], [1], [2]]
      ⟨.NOERROR, [], 0, [], 0, 0,
        [.boolean false, .boolean true, .number 2], [], []⟩).1 = [[1]] :=
  c1_position_literal_predicate (Tree.node none none [])
    ⟨.NOERROR, [], 0, [], 0, 0,
      [.boolean false, .boolean true, .number 2], [], []⟩
    [[0], [1], [2]] 2 2 [1] 9 (by decide) rfl (by decide) (by omega)
    (by decide) (by decide) (by decide)

/-
Claim C10: expand_tree when the whole path already matches one node.
-/

theorem ns_go_length (steps : List Step) :
    ∀ (fuel : Nat) (t : Tree) (work : List Pos) (s : State),
      (ns_go fuel t steps work s).1.length = steps.length := by
  induction steps with
  | nil =>
      intro fuel t work s
      cases fuel <;> simp [ns_go]
  | cons st rest ih =>
      intro fuel t work s
      cases fuel with
      | zero => simp [ns_go]
      | succ f =>
          unfold ns_go
          rcases hse : step_expand t st work with _ | next0
          · simp [hse]
          · rcases st with ⟨ax, nm, preds⟩
            simp [hse, ih]

theorem ns_from_locpath_length (fuel : Nat) (t : Tree) (lp : List Step)
    (s : State) : (ns_from_locpath fuel t lp s).1.length = lp.length + 1 := by
  cases fuel with
  | zero => simp [ns_from_locpath]
  | succ f =>
      unfold ns_from_locpath
      rcases hng : ns_go f t lp [s.ctx] s with ⟨tailNs, s1⟩
      simp only [List.length_cons]
      have h2 := ns_go_length lp f t [s.ctx] s
      rw [hng] at h2
      simp only at h2
      omega

theorem last_nonempty_of_getLast :
    ∀ (ns : List (List Pos)) (l : List Pos), ns.getLast? = some l → l ≠ [] →
      last_nonempty ns = some (ns.length - 1) ∧
      ns.get? (ns.length - 1) = some l := by
  intro ns
  induction ns with
  | nil => intro l h hne; simp at h
  | cons x rest ih =>
      intro l h hne
      cases rest with
      | nil =>
          simp at h
          subst h
          refine ⟨?_, by simp⟩
          simp [last_nonempty, List.isEmpty_iff, hne]
      | cons y ys =>
          have h2 : (y :: ys).getLast? = some l := by
            rw [List.getLast?_cons_cons] at h
            exact h
          obtain ⟨h3, h4⟩ := ih l h2 hne
          constructor
          · unfold last_nonempty
            rw [h3]
            simp
          · simp only [List.length_cons]
            simp only [List.length_cons] at h4
            have hlen : ys.length + 1 + 1 - 1 = (ys.length + 1 - 1) + 1 := by omega
            rw [hlen, List.get?_cons_succ]
            exact h4

theorem locpath_search_exact (t : Tree) (lp : List Step) (s0 : State)
    (tm : Pos) (x : Pos) (ns : List (List Pos)) (s1 : State)
    (h : ns_from_locpath (evalFuel t ({ s0 with ctx := tm } : State).txt) t lp
        { s0 with ctx := tm } = (ns, s1))
    (herr : s1.errcode = .NOERROR)
    (hlast : ns.getLast? = some [x]) :
    locpath_search t lp s0 tm = (0, some x, [], s1) := by
  have hlen : ns.length = lp.length + 1 := by
    have h2 := ns_from_locpath_length
      (evalFuel t ({ s0 with ctx := tm } : State).txt) t lp { s0 with ctx := tm }
    rw [h] at h2
    exact h2
  obtain ⟨hln, hget⟩ := last_nonempty_of_getLast ns [x] hlast (by simp)
  unfold locpath_search
  simp only [h]
  simp only [hasError, herr]
  simp only [hln, hget]
  have hdrop : lp.drop (ns.length - 1) = [] := by
    rw [hlen]
    simp
  rw [hdrop]
  simp

/-- C10: when the entire location path already matches exactly one node x,
pathx_expand_tree returns 0, reports x as the out-node, and creates
nothing: the returned tree is the input tree unchanged. -/
theorem c10_expand_exact_match (t : Tree) (p : Pathx) (x : Pos)
    (ns : List (List Pos)) (s1 : State)
    (h : ns_from_locpath (evalFuel t ({ p.state with ctx := p.origin } : State).txt)
        t p.locpath { p.state with ctx := p.origin } = (ns, s1))
    (herr : s1.errcode = .NOERROR)
    (hlast : ns.getLast? = some [x]) :
    pathx_expand_tree t p = (0, some x, t) := by
  unfold pathx_expand_tree
  rw [locpath_search_exact t p.locpath p.state p.origin x ns s1 h herr hlast]
  simp

/-- C10, witness: the path "/" over a one-node tree matches exactly the
root; expand_tree returns it and leaves the tree alone. -/
theorem c10_expand_exact_match_witness :
    pathx_expand_tree (Tree.node none none []) (pathx_parse [] ['/']) =
      (0, some [], Tree.node none none []) :=
  c10_expand_exact_match (Tree.node none none []) (pathx_parse [] ['/']) []
    (ns_from_locpath
      (evalFuel (Tree.node none none [])
        ({ (pathx_parse [] ['/']).state with
            ctx := (pathx_parse [] ['/']).origin } : State).txt)
      (Tree.node none none []) (pathx_parse [] ['/']).locpath
      { (pathx_parse [] ['/']).state with
          ctx := (pathx_parse [] ['/']).origin }).1
    (ns_from_locpath
      (evalFuel (Tree.node none none [])
        ({ (pathx_parse [] ['/']).state with
            ctx := (pathx_parse [] ['/']).origin } : State).txt)
      (Tree.node none none []) (pathx_parse [] ['/']).locpath
      { (pathx_parse [] ['/']).state with
          ctx := (pathx_parse [] ['/']).origin }).2
    rfl (by decide) (by decide)

end PathxC
